import Mathlib

set_option maxRecDepth 8000

namespace EasilyJs

/-!
Shallow embedding of the `easliyjs` form-validator core
(`src/packages/uesFormValidator/src/{validator,rules}.ts` and the utility
module `toArray`/`debounce`/`normalizeKey`/`get`).

JS records are embedded as association lists `List (String × _)` (keys unique
in every state the library builds; helper lemmas handle the general case).
JS string primitives used by the source (`split('.')`, `startsWith`,
`includes('.')`, `join('.')`, the `\[(\w+)\]` regex replacement) are
re-implemented structurally below so that every definition evaluates inside
the kernel.
-/

/-- JS data values as seen by the validator's model traversal.  Arrays are
modelled as objects keyed by their numeric-string indices, which matches how
the source's `get` uses the JS `in` operator and index access on them.
`null` is not needed by any claim and is omitted. -/
inductive Value where
  | vUndef
  | vStr (s : String)
  | vNum (n : Int)
  | vBool (b : Bool)
  | vObj (fields : List (String × Value))

/-- Association-list lookup with JS record semantics (first binding wins). -/
def alookup {β : Type} : List (String × β) → String → Option β
  | [], _ => none
  | (k, v) :: t, j => if j = k then some v else alookup t j

/-- JS `record[key] = value`: overwrite an existing binding, else append. -/
def ainsert {β : Type} (m : List (String × β)) (k : String) (v : β) : List (String × β) :=
  if (alookup m k).isSome then m.map (fun p => if p.1 = k then (k, v) else p) else m ++ [(k, v)]

/-- JS `delete record[key]` / `Map.delete`. -/
def aremove {β : Type} (m : List (String × β)) (k : String) : List (String × β) :=
  m.filter (fun p => p.1 != k)

/-- Apply `f` to the binding of `k`.  The source performs
`Object.assign(record[key], patch)`, which throws if the binding is missing;
that missing-binding crash is modelled as a no-op and every theorem that
relies on a write only does so for bindings that are present. -/
def aupdate {β : Type} : List (String × β) → String → (β → β) → List (String × β)
  | [], _, _ => []
  | (a, b) :: t, k, f => (if a = k then (a, f b) else (a, b)) :: aupdate t k f

/-- JS `key.split('.')` (structural re-implementation of the JS primitive
used by `get` and `getRuleByDeepRule`; `"".split('.') = [""]`). -/
def splitDotChars : List Char → List (List Char)
  | [] => [[]]
  | c :: rest =>
    if c = '.' then [] :: splitDotChars rest
    else
      match splitDotChars rest with
      | [] => [[c]]
      | g :: gs => (c :: g) :: gs

/-- JS `key.split('.')` on strings. -/
def jsSplitDot (s : String) : List String :=
  (splitDotChars s.data).map (fun cs => String.mk cs)

/-- JS `s.startsWith(pre)`. -/
def jsStartsWith (s pre : String) : Bool :=
  pre.data.isPrefixOf s.data

/-- JS `key.includes('.')`. -/
def containsDot (s : String) : Bool :=
  s.data.contains '.'

/-- JS `segments.join('.')`. -/
def joinDots : List String → String
  | [] => ""
  | [s] => s
  | s :: rest => s ++ "." ++ joinDots rest

/-- A character of the JS regex class `\w`. -/
def isWordChar (c : Char) : Bool :=
  c.isAlphanum || c = '_'

/-- Match a leading `\w+]` span: returns the word characters and the residue
after the closing bracket, if the characters right after an `[` form one. -/
def splitWordBracket (rest : List Char) : Option (List Char × List Char) :=
  let w := rest.takeWhile isWordChar
  if w.isEmpty then none
  else
    match rest.drop w.length with
    | ']' :: tail => some (w, tail)
    | _ => none

/-- JS `key.replace(/\[(\w+)\]/g, '.$1')` as a left-to-right scan.  The
fuel argument (always instantiated with the list length, which is an upper
bound for the number of steps) keeps the recursion structural so that the
definition evaluates by `rfl`. -/
def replaceBracketsAux : Nat → List Char → List Char
  | _, [] => []
  | 0, l => l
  | fuel + 1, c :: rest =>
    if c = '[' then
      match splitWordBracket rest with
      | some (w, tail) => '.' :: (w ++ replaceBracketsAux fuel tail)
      | none => '[' :: replaceBracketsAux fuel rest
    else c :: replaceBracketsAux fuel rest

/-- JS `key.replace(/^\./, '')`. -/
def stripLeadingDot : List Char → List Char
  | '.' :: rest => rest
  | l => l

/-- Embedding of `normalizeKey` from the utility module, for string keys
(the only key form the claims exercise; number keys are stringified and
array keys are dot-joined before reaching this code path).  The `nkc`
memoization cache is semantically transparent and omitted. -/
def normalizeKey (key : String) : String :=
  String.mk (stripLeadingDot (replaceBracketsAux key.data.length key.data))

/-- Result record of the utility `get` (value, `exist`, `diff`). -/
structure GetResult where
  value : Value
  exist : Bool
  diff : Nat

/-- Traversal loop of `get`: walks the remaining segments; a missing segment
with `d` segments strictly after it yields `exist = (d == 0)`, `diff = d`.
The JS `in` operator throws a `TypeError` on a non-object, modelled as
`Except.error`. -/
def getGo : Value → List String → Except Unit GetResult
  | v, [] => .ok ⟨v, true, 0⟩
  | .vObj fs, k :: rest =>
    match alookup fs k with
    | some v => getGo v rest
    | none => .ok ⟨.vUndef, rest.length == 0, rest.length⟩
  | _, _ :: _ => .error ()

/-- Embedding of `get` from the utility module. -/
def get (obj : Value) (key : String) : Except Unit GetResult :=
  getGo obj (jsSplitDot key)

/-- Modelled from the spec: the number of remaining segments from the miss
point to the end of the path ("if traversal stops early at depth d before the
last segment, missingDepth = remainingSegments"), `none` when every segment
resolves.  Reference definition for the refinement comparison with `get`. -/
def specMissRemaining : Value → List String → Option Nat
  | _, [] => none
  | v, k :: rest =>
    match v with
    | .vObj fs =>
      match alookup fs k with
      | some v' => specMissRemaining v' rest
      | none => some rest.length
    | _ => none

/-- Rule `type` values distinguished by `isDeepRule` (`'object'`/`'array'`
versus everything else). -/
inductive RType where
  | tObject
  | tArray
  | tOther
deriving DecidableEq

/-- Embedding of `UseFormRuleItem` restricted to the fields the core logic
reads: `required`, `message`, `type`, `fields`, `defaultField`.  `fields` and
`defaultField` are `Option`s because `isDeepRule` tests their *presence*
(JS truthiness: present-but-empty objects/arrays still count); their rule
values are stored in the `toArray`-normalized list form. -/
inductive Rule where
  | mk (required : Bool) (message : Option String) (rtype : Option RType)
      (fields : Option (List (String × List Rule)))
      (defaultField : Option (List Rule))

def Rule.required : Rule → Bool
  | .mk r _ _ _ _ => r

def Rule.message : Rule → Option String
  | .mk _ m _ _ _ => m

def Rule.rtype : Rule → Option RType
  | .mk _ _ t _ _ => t

def Rule.fields : Rule → Option (List (String × List Rule))
  | .mk _ _ _ f _ => f

def Rule.defaultField : Rule → Option (List Rule)
  | .mk _ _ _ _ d => d

/-- Embedding of `isRequired` from `rules.ts`. -/
def isRequired (rules : List Rule) : Bool :=
  rules.any (fun r => r.required)

/-- Embedding of `isDeepRule` from `rules.ts`. -/
def isDeepRule (r : Rule) : Bool :=
  (r.rtype = some RType.tObject || r.rtype = some RType.tArray)
    && (r.fields.isSome || r.defaultField.isSome)

/-- One step of the deep-rule expansion loop body: for every current rule
that `isDeepRule`, contribute `toArray(rule.defaultField)` followed by
`toArray(rule.fields?.[currentKey])`. -/
def deepStep (seg : String) (rs : List Rule) : List Rule :=
  rs.flatMap (fun r =>
    if isDeepRule r then
      (r.defaultField.getD []) ++ ((r.fields.bind (fun fs => alookup fs seg)).getD [])
    else [])

/-- The `while` loop of `getRuleByDeepRule`.  The source exits the loop as
soon as the candidate set is empty and then contributes nothing (the path was
not fully consumed); continuing the recursion instead keeps the candidate set
empty and contributes the empty list, which is the same contribution. -/
def expandDeep : List Rule → List String → List Rule
  | rs, [] => rs
  | rs, seg :: rest => expandDeep (deepStep seg rs) rest

/-- Embedding of `getRuleByDeepRule` from `rules.ts`: for each prefix length
`i+1` of the dotted path, start from the declared rules of that prefix and
expand through `defaultField`/`fields` across the remaining segments. -/
def getRuleByDeepRule (key : String) (ruleSource : List (String × List Rule)) : List Rule :=
  let keys := jsSplitDot key
  (List.range keys.length).flatMap (fun i =>
    expandDeep ((alookup ruleSource (joinDots (keys.take (i + 1)))).getD []) (keys.drop (i + 1)))

/-- Validation status values (`'' | 'validating' | 'success' | 'error'`).
A freshly created info object has no `validateStatus` property at all; that
absent property is collapsed into `empty` (no claim distinguishes the two). -/
inductive VStatus where
  | empty
  | validating
  | success
  | error
deriving DecidableEq

/-- Embedding of `UseFormValidateInfo`.  `error = none` models both an
absent `error` property and an explicit `undefined`. -/
structure VInfo where
  required : Bool := false
  validateStatus : VStatus := .empty
  error : Option String := none
deriving DecidableEq

/-- The patch `{ validateStatus: '', error: undefined }`. -/
def clearedPatch (i : VInfo) : VInfo :=
  { i with validateStatus := .empty, error := none }

/-- The patch `{ validateStatus: 'validating', error: undefined }`. -/
def validatingPatch (i : VInfo) : VInfo :=
  { i with validateStatus := .validating, error := none }

/-- The patch `{ validateStatus: 'success' }` (the `error` property is not
part of the patch, so a previously stored message is kept). -/
def successKeepErr (i : VInfo) : VInfo :=
  { i with validateStatus := .success }

/-- The patch `{ validateStatus: 'success', error: '' }`. -/
def successEmptyErr (i : VInfo) : VInfo :=
  { i with validateStatus := .success, error := some "" }

/-- The patch `{ validateStatus: 'success', error: undefined }`. -/
def successClearErr (i : VInfo) : VInfo :=
  { i with validateStatus := .success, error := none }

/-- The patch `{ validateStatus: 'error', error: msg }`. -/
def errorWith (msg : Option String) (i : VInfo) : VInfo :=
  { i with validateStatus := .error, error := msg }

/-- The `FormValidator` options the core logic reads (`debounceMs` is
modelled separately, see the debounce definitions below). -/
structure Options where
  strict : Bool := false
  deepRule : Bool := false

/-- The mutable fields of a `FormValidator` instance: `normalizedRules`,
`deepRuleKeys`, `watchHandles` (a watch handle is identified by its key; the
attached Vue watcher callback lives outside this state), `_validateInfos`. -/
structure ValidatorState where
  normalizedRules : List (String × List Rule)
  deepRuleKeys : List (String × Bool)
  watchHandles : List String
  validateInfos : List (String × VInfo)

/-- An entry of an async-validator error list: `{ message, fieldValue,
field }`. -/
structure ErrItem where
  message : Option String
  fieldValue : Value
  field : String

/-- The two ways an async-validator call can come back: fulfilled, or
rejected with a `{ errors, fields }` pair.  `none` models a nullish
(`null`/`undefined`) component, `some` a present one (JS truthiness: even an
empty array/object is "present").  The rejection with both components
nullish is what `triggerValidate` treats as an unknown validation error. -/
inductive EngineOutcome where
  | ok
  | fail (errors : Option (List ErrItem)) (fields : Option (List (String × List ErrItem)))

/-- Result of the promise returned by `triggerValidate`. -/
inductive TVOutcome where
  | resolved (b : Bool)
  | rejectedFields (fields : List (String × List ErrItem))
  | threwValidationError (field : String) (rule : String) (value : Value)
  | crashed

/-- The synchronous phase of `triggerValidate`: either the absence branch
resolved early, or the state was marked `validating` and the engine is about
to be invoked with the collected cascading deep keys, this path's rule list
and the resolved value. -/
inductive TVPhase where
  | early (st : ValidatorState)
  | invoke (st : ValidatorState) (deepKeys : List String) (rules : List Rule) (value : Value)

def TVPhase.isEarly : TVPhase → Bool
  | .early _ => true
  | .invoke _ _ _ _ => false

def TVPhase.state : TVPhase → ValidatorState
  | .early st => st
  | .invoke st _ _ _ => st

/-- The infos map produced by the absence branch of `triggerValidate`
(validator.ts 256-267): clear this key, and clear every *deep-registered key
`k` that is a prefix of the validated key* (`valid && key.startsWith(k) &&
key !== k`) — note the orientation, opposite to the cascade collection of
the other branch. -/
def tvAbsenceClear (opts : Options) (st : ValidatorState) (key : String) :
    List (String × VInfo) :=
  if opts.deepRule then
    st.deepRuleKeys.foldl
      (fun m kv =>
        if kv.2 && jsStartsWith key kv.1 && kv.1 != key then aupdate m kv.1 clearedPatch
        else m)
      (aupdate st.validateInfos key clearedPatch)
  else aupdate st.validateInfos key clearedPatch

/-- The cascading deep keys of `triggerValidate` (validator.ts 274-282):
deep-registered keys `k` with `valid && k.startsWith(key) && k !== key`.
The source collects them and marks them `validating` in a single `forEach`;
the collection is factored out here and the marking happens in
`triggerValidateSync`, with the same net state. -/
def tvDeepKeys (opts : Options) (st : ValidatorState) (key : String) : List String :=
  if opts.deepRule then
    st.deepRuleKeys.filterMap
      (fun kv => if kv.2 && jsStartsWith kv.1 key && kv.1 != key then some kv.1 else none)
  else []

/-- Synchronous part of `FormValidator.triggerValidate` (validator.ts
252-287), up to the `AsyncValidator.validate` call. -/
def triggerValidateSync (opts : Options) (st : ValidatorState) (key : String)
    (gr : GetResult) : TVPhase :=
  if !gr.exist && (!opts.strict || decide (gr.diff > 1)) then
    .early { st with validateInfos := tvAbsenceClear opts st key }
  else
    .invoke
      { st with
          validateInfos := (tvDeepKeys opts st key).foldl
            (fun m k => aupdate m k validatingPatch)
            (aupdate st.validateInfos key validatingPatch) }
      (tvDeepKeys opts st key) ((alookup st.normalizedRules key).getD []) gr.value

/-- JS `errors?.[0]?.message`. -/
def firstMsg : Option (List ErrItem) → Option String
  | some (e :: _) => e.message
  | _ => none

/-- JS `fields[k][0].message` (the engine contract guarantees a non-empty
list; the empty case, where JS would throw, is modelled as no message). -/
def fieldMsg : List ErrItem → Option String
  | e :: _ => e.message
  | [] => none

/-- Per-descendant patch of the failure branch: `error` + first message for
keys present in the failure map, `success` + cleared error otherwise. -/
def deepFailPatch (fields : List (String × List ErrItem)) (k : String) : VInfo → VInfo :=
  match alookup fields k with
  | some l => errorWith (fieldMsg l)
  | none => successClearErr

/-- Patch applied to the validated key itself in the failure branch
(validator.ts 305): `key in fields` gives `error` with the first message of
the global `errors` list, else `success` with `error: ''`. -/
def failMainPatch (fields : List (String × List ErrItem)) (errors : Option (List ErrItem))
    (key : String) : VInfo → VInfo :=
  if (alookup fields key).isSome then errorWith (firstMsg errors) else successEmptyErr

/-- Continuation of `triggerValidate` after the engine settles (validator.ts
288-315).  An unstructured rejection (`!errors && !fields`) throws a
`FormValidationError(key, 'unknown', value)` and leaves the state untouched
(so the key stays `validating`).  A structured rejection patches the main
key from `key in fields` (message from the global `errors` list) and every
cascaded key from its own entry, then rejects with the `fields` map.
`crashed` covers `errors` present with `fields` nullish, where the source's
`key in fields` would itself throw; the engine contract never produces it. -/
def triggerValidateComplete (st : ValidatorState) (key : String) (deepKeys : List String)
    (value : Value) (outcome : EngineOutcome) : ValidatorState × TVOutcome :=
  match outcome with
  | .ok =>
    let m1 := aupdate st.validateInfos key successKeepErr
    let m2 := deepKeys.foldl (fun m k => aupdate m k successKeepErr) m1
    ({ st with validateInfos := m2 }, .resolved true)
  | .fail errors fieldsOpt =>
    if errors.isNone && fieldsOpt.isNone then
      (st, .threwValidationError key "unknown" value)
    else
      match fieldsOpt with
      | none => (st, .crashed)
      | some fields =>
        ({ st with
            validateInfos := deepKeys.foldl
              (fun m k => aupdate m k (deepFailPatch fields k))
              (aupdate st.validateInfos key (failMainPatch fields errors key)) },
          .rejectedFields fields)

/-- Embedding of `FormValidator.triggerValidate`, parameterized by the
external rule engine (async-validator), which receives exactly this path's
rule list and resolved value.  The third component records whether the
engine was invoked. -/
def triggerValidateWith (opts : Options)
    (engine : String → List Rule → Value → EngineOutcome)
    (st : ValidatorState) (key : String) (gr : GetResult) :
    ValidatorState × TVOutcome × Bool :=
  match triggerValidateSync opts st key gr with
  | .early st' => (st', .resolved true, false)
  | .invoke st' dk rules v =>
    let p := triggerValidateComplete st' key dk v (engine key rules v)
    (p.1, p.2, true)

/-- Modelled from the spec: the external RuleEngine (async-validator) is an
external collaborator; the spec describes it as "given {path: Rule[]} and
{path: value}, asynchronously resolves to success, or rejects with {errors:
ordered list of {message, ...}, fields: map<path, list of {message,
fieldValue, field}>}", and its required-rule behaviour through the examples
(a `required` rule fails on an absent value or the empty string, with the
rule's message, the offending value and the field path).  Only the
`required` check is modelled because it is the only rule kind the claims
exercise; `firstFields: true` stops at the first failing rule. -/
def isEmptyValue : Value → Bool
  | .vUndef => true
  | .vStr "" => true
  | _ => false

/-- Modelled from the spec (see `isEmptyValue`): the async-validator call on
a single field. -/
def ruleEngineRequired (key : String) (rules : List Rule) (value : Value) : EngineOutcome :=
  match rules.find? (fun r => r.required && isEmptyValue value) with
  | some r => .fail (some [⟨r.message, value, key⟩]) (some [(key, [⟨r.message, value, key⟩])])
  | none => .ok

/-- Embedding of the proxy `get` trap of `FormValidator.validationState`
(validator.ts 95-119) for a plain string property read: possibly derives and
caches deep rules, then returns the looked-up info.  The source performs the
four registration writes one after another on `this`; they are combined into
one record update of the same net effect. -/
def readValidationState (opts : Options) (st : ValidatorState) (p : String) :
    ValidatorState × Option VInfo :=
  let key := normalizeKey p
  if (alookup st.validateInfos key).isNone && containsDot key && opts.deepRule
      && (alookup st.deepRuleKeys key).isNone then
    let deepRules := getRuleByDeepRule key st.normalizedRules
    if deepRules.isEmpty then
      ({ st with deepRuleKeys := ainsert st.deepRuleKeys key false }, none)
    else
      let info : VInfo := { required := isRequired deepRules }
      ({ normalizedRules := ainsert st.normalizedRules key deepRules,
         deepRuleKeys := ainsert st.deepRuleKeys key true,
         watchHandles := if st.watchHandles.contains key then st.watchHandles
                         else st.watchHandles ++ [key],
         validateInfos := ainsert st.validateInfos key info }, some info)
  else (st, alookup st.validateInfos key)

/-- Embedding of `FormValidator.obtainValidateFields`.  `props = none`
models an omitted argument; a single key is passed as a one-element list
(`toArray`). -/
def obtainValidateFields (opts : Options) (st : ValidatorState)
    (props : Option (List String)) : List String :=
  let fields := (props.getD []).map normalizeKey
  if !fields.isEmpty then
    fields.filter (fun k => (alookup st.normalizedRules k).isSome)
  else
    let keys := st.normalizedRules.map (fun p => p.1)
    if opts.deepRule then keys.filter (fun k => (alookup st.deepRuleKeys k).isNone) else keys

/-- Embedding of `FormValidator.clearValidate`: clears status/error of the
obtained fields, then of every deep-registered key with value `true` that
properly extends one of those fields. -/
def clearValidate (opts : Options) (st : ValidatorState)
    (props : Option (List String)) : ValidatorState :=
  let fields := obtainValidateFields opts st props
  let m1 := fields.foldl (fun m k => aupdate m k clearedPatch) st.validateInfos
  let m2 := st.deepRuleKeys.foldl
    (fun m kv =>
      if kv.2 && fields.any (fun f => jsStartsWith kv.1 f && kv.1 != f) then
        aupdate m kv.1 clearedPatch
      else m)
    m1
  { st with validateInfos := m2 }

/-- Embedding of `FormValidator.clearDeepInfo`: re-resolves the backing
value and, if it is absent and `(strict || diff)`, removes the key's
validation info, deep-registry entry, watch handle and rule-index entry.
The source calls `this.watchHandles[key]()`, which throws if no handle is
registered; that crash (and a `get` traversal crash) is `Except.error`. -/
def clearDeepInfo (model : Value) (strict : Bool) (st : ValidatorState) (key : String) :
    Except Unit ValidatorState :=
  match get model key with
  | .error e => .error e
  | .ok r =>
    if !r.exist && (strict || r.diff != 0) then
      if st.watchHandles.contains key then
        .ok { normalizedRules := aremove st.normalizedRules key,
              deepRuleKeys := aremove st.deepRuleKeys key,
              watchHandles := st.watchHandles.filter (fun k => k != key),
              validateInfos := aremove st.validateInfos key }
      else .error ()
    else .ok st

/-- Embedding of `FormValidator.clearDeepValidation`.  With explicit props,
each is normalized and cleared when its deep-registry value is truthy; with
none, every registry entry with value `true` is cleared.  The source's live
`Map.forEach` only ever deletes the entry currently being visited, so a fold
over the initial entries is equivalent. -/
def clearDeepValidation (opts : Options) (model : Value) (st : ValidatorState)
    (props : Option (List String)) (strict : Bool) : Except Unit ValidatorState :=
  if !opts.deepRule then .ok st
  else
    match props.getD [] with
    | [] =>
      st.deepRuleKeys.foldlM
        (fun s kv => if kv.2 then clearDeepInfo model strict s kv.1 else pure s) st
    | k :: ks =>
      (k :: ks).foldlM
        (fun s k0 =>
          let key := normalizeKey k0
          if (alookup s.deepRuleKeys key).getD false then clearDeepInfo model strict s key
          else pure s)
        st

/-- A value stored in the `validationErrors` accumulator of
`doValidateField`: either a field's error list (from a structured rejection)
or a string/value own-property copied off a thrown `Error` object by the
catch-all `Object.assign`. -/
inductive EntryVal where
  | items (l : List ErrItem)
  | str (s : String)
  | val (v : Value)

/-- The own enumerable properties of a `FormValidationError(field, rule,
value)` instance, in assignment order, as `Object.assign` copies them
(`message` is a non-enumerable `Error` property and is not copied). -/
def errProps (field rule : String) (value : Value) : List (String × EntryVal) :=
  [("field", .str field), ("rule", .str rule), ("value", .val value),
   ("name", .str "FormValidationError")]

/-- JS `Object.assign(m, src)` on plain records. -/
def assignAll (m src : List (String × EntryVal)) : List (String × EntryVal) :=
  src.foldl (fun acc kv => ainsert acc kv.1 kv.2) m

/-- Resolution of the promise returned by `doValidateField`: fulfilled with
`true`, or rejected with the accumulated plain `validationErrors` object.
The rejected value is never an `Error` instance: the per-field `catch`
flattens even a thrown `FormValidationError` into plain map entries via
`Object.assign`, so the `e instanceof Error` rethrow in `validateField`
downstream can never fire for engine failures. -/
inductive DVRes where
  | resolvedTrue
  | rejectedPlainMap (m : List (String × EntryVal))

/-- Embedding of `doValidateField` from the `useForm` module: short-circuits
on an empty field set, otherwise sequentially triggers each field, catching
every rejection into `validationErrors`.  The second component lists the
keys for which the rule engine was actually invoked. -/
def doValidateField (opts : Options) (model : Value)
    (engine : String → List Rule → Value → EngineOutcome)
    (st : ValidatorState) (props : Option (List String)) :
    Except Unit (ValidatorState × List String × DVRes) :=
  let fields := obtainValidateFields opts st props
  if fields.isEmpty then .ok (st, [], .resolvedTrue)
  else do
    let acc ← fields.foldlM
      (fun (acc : ValidatorState × List String × List (String × EntryVal)) f => do
        let gr ← get model f
        let r := triggerValidateWith opts engine acc.1 f gr
        let calls := if r.2.2 then acc.2.1 ++ [f] else acc.2.1
        match r.2.1 with
        | .resolved _ => pure (r.1, calls, acc.2.2)
        | .rejectedFields m =>
          pure (r.1, calls, assignAll acc.2.2 (m.map (fun kv => (kv.1, EntryVal.items kv.2))))
        | .threwValidationError fld rl v =>
          pure (r.1, calls, assignAll acc.2.2 (errProps fld rl v))
        | .crashed => Except.error ())
      (st, [], [])
    if acc.2.2.isEmpty then pure (acc.1, acc.2.1, .resolvedTrue)
    else pure (acc.1, acc.2.1, .rejectedPlainMap acc.2.2)

/-- Resolution of the promise returned by `validateField`, plus what a
supplied callback received. -/
inductive VFRes where
  | resolvedTrue
  | resolvedFalse
  | rejectedMap (m : List (String × EntryVal))

/-- Observable outcome of a `validateField` call: final validator state, the
keys the engine was invoked for, the promise resolution, and the arguments
of every callback invocation. -/
structure VFOut where
  state : ValidatorState
  engineCalls : List String
  res : VFRes
  callbacks : List (Bool × Option (List (String × EntryVal)))

/-- Embedding of `validateField` from the `useForm` module: on success the
callback (if any) receives `true`; on a rejected plain map the callback
receives `(false, map)` and the call resolves `false`, else (no callback) it
rejects with the map.  The source's `if (e instanceof Error) throw e` branch
is unreachable from `doValidateField`, whose rejection value is always the
plain `validationErrors` object (see `DVRes`). -/
def validateField (opts : Options) (model : Value)
    (engine : String → List Rule → Value → EngineOutcome)
    (st : ValidatorState) (props : Option (List String)) (hasCallback : Bool) :
    Except Unit VFOut :=
  match doValidateField opts model engine st props with
  | .error e => .error e
  | .ok (st', calls, .resolvedTrue) =>
    .ok ⟨st', calls, .resolvedTrue, if hasCallback then [(true, none)] else []⟩
  | .ok (st', calls, .rejectedPlainMap m) =>
    if hasCallback then .ok ⟨st', calls, .resolvedFalse, [(false, some m)]⟩
    else .ok ⟨st', calls, .rejectedMap m, []⟩

/-- Embedding of `validate` from the `useForm` module:
`validateField(undefined, callback)`. -/
def validate (opts : Options) (model : Value)
    (engine : String → List Rule → Value → EngineOutcome)
    (st : ValidatorState) (hasCallback : Bool) : Except Unit VFOut :=
  validateField opts model engine st none hasCallback

/-- Embedding of `debounce` from the utility module: one shared timeout
slot; each call clears the pending timeout and stores its own arguments. -/
def debounceCall {α : Type} (pending : Option α) (args : α) : Option α :=
  let _ := pending
  some args

/-- The pending invocation after a burst of calls that all fall inside one
debounce window (each call replaces the previous pending one). -/
def debouncePending {α : Type} (calls : List α) : Option α :=
  calls.foldl debounceCall none

/-- The invocations actually executed once the shared timer finally fires
after the window: the stored call, if any. -/
def debounceExecuted {α : Type} (calls : List α) : List α :=
  (debouncePending calls).toList

/-! Concrete fixtures used by the claim theorems, counterexamples and
witnesses below. -/

/-- The rule `{ required: true, message: 'required' }`. -/
def nameRule : Rule := .mk true (some "required") none none none

/-- The rule `{ type: 'object', fields: { name: nameRule } }`. -/
def objRule : Rule := .mk false none (some .tObject) (some [("name", [nameRule])]) none

/-- The rule `{ type: 'array', defaultField: objRule }`. -/
def itemsRule : Rule := .mk false none (some .tArray) none (some [objRule])

/-- Validator state after registering the single rule `{ name: nameRule }`. -/
def stC1 : ValidatorState :=
  { normalizedRules := [("name", [nameRule])], deepRuleKeys := [],
    watchHandles := ["name"], validateInfos := [("name", { required := true })] }

/-- Validator state after registering `{ items: itemsRule }`. -/
def stC2 : ValidatorState :=
  { normalizedRules := [("items", [itemsRule])], deepRuleKeys := [],
    watchHandles := ["items"], validateInfos := [("items", { required := false })] }

/-- Options with `deepRule` enabled, non-strict. -/
def optsC2 : Options := { strict := false, deepRule := true }

/-- Model `{ items: [ { name: '' } ] }` (the array as a numeric-keyed object). -/
def modelC2 : Value := .vObj [("items", .vObj [("0", .vObj [("name", .vStr "")])])]

/-- An info currently in validation-error state. -/
def errInfo : VInfo := { required := false, validateStatus := .error, error := some "required" }

/-- State with the deep-registered descendant `a.b.c` of the declared path
`a.b`, both currently in error state. -/
def stC5 : ValidatorState :=
  { normalizedRules := [("a.b", [nameRule]), ("a.b.c", [nameRule])],
    deepRuleKeys := [("a.b.c", true)],
    watchHandles := ["a.b", "a.b.c"],
    validateInfos := [("a.b", errInfo), ("a.b.c", errInfo)] }

/-- State with the single registered path `name` (used for the unknown
engine-failure scenarios). -/
def stC6 : ValidatorState :=
  { normalizedRules := [("name", [nameRule])], deepRuleKeys := [],
    watchHandles := ["name"], validateInfos := [("name", { required := true })] }

/-- Model `{ name: 'x' }`. -/
def modelC6 : Value := .vObj [("name", .vStr "x")]

/-- An engine whose call rejects without a structured `{errors, fields}`
shape, i.e. an infrastructure failure (e.g. an exception thrown inside a
custom rule check). -/
def unknownEngine : String → List Rule → Value → EngineOutcome :=
  fun _ _ _ => .fail none none

/-- State with the deep-registered path `a.b` whose backing data is gone. -/
def stC7 : ValidatorState :=
  { normalizedRules := [("a.b", [nameRule])], deepRuleKeys := [("a.b", true)],
    watchHandles := ["a.b"], validateInfos := [("a.b", errInfo)] }

/-! General lemmas about the association-list operations and the folds used
by the validator. -/

theorem alookup_aupdate {β : Type} (m : List (String × β)) (k : String) (f : β → β)
    (j : String) :
    alookup (aupdate m k f) j = if j = k then (alookup m j).map f else alookup m j := by
  induction m with
  | nil => simp [aupdate, alookup]
  | cons p t ih =>
    obtain ⟨a, b⟩ := p
    simp only [aupdate]
    by_cases hak : a = k
    · rw [if_pos hak]
      by_cases hja : j = a
      · subst hja
        simp [alookup, hak, ih]
      · have hjk : j ≠ k := fun h => hja (h.trans hak.symm)
        simp [alookup, hja, hjk, ih]
    · rw [if_neg hak]
      by_cases hja : j = a
      · subst hja
        simp [alookup, hak, ih]
      · simp [alookup, hja, ih]

theorem alookup_eq_none_of_notmem {β : Type} (t : List (String × β)) (j : String)
    (h : j ∉ t.map Prod.fst) : alookup t j = none := by
  induction t with
  | nil => rfl
  | cons p t ih =>
    obtain ⟨a, b⟩ := p
    simp only [List.map_cons, List.mem_cons] at h
    push_neg at h
    simp [alookup, h.1, ih h.2]

theorem alookup_foldAupdate_notmem {β : Type} (g : String → β → β) (ks : List String)
    (m : List (String × β)) (j : String) (h : ∀ k ∈ ks, k ≠ j) :
    alookup (ks.foldl (fun m k => aupdate m k (g k)) m) j = alookup m j := by
  induction ks generalizing m with
  | nil => rfl
  | cons k t ih =>
    simp only [List.foldl_cons]
    rw [ih _ (fun x hx => h x (List.mem_cons_of_mem _ hx)), alookup_aupdate,
      if_neg (fun hjk => (h k (List.mem_cons_self k t)) (Eq.symm hjk))]

theorem alookup_condFold (l : List (String × Bool)) (c : String × Bool → Bool)
    (f : VInfo → VInfo) (m : List (String × VInfo)) (j : String)
    (hnd : (l.map Prod.fst).Nodup) (hc : ∀ k, c (k, false) = false) :
    alookup (l.foldl (fun m kv => if c kv then aupdate m kv.1 f else m) m) j
      = if alookup l j = some true ∧ c (j, true) = true then (alookup m j).map f
        else alookup m j := by
  induction l generalizing m with
  | nil => simp [alookup]
  | cons kv t ih =>
    obtain ⟨a, b⟩ := kv
    simp only [List.map_cons, List.nodup_cons] at hnd
    obtain ⟨ha, hndt⟩ := hnd
    simp only [List.foldl_cons]
    rw [ih _ hndt]
    by_cases hja : j = a
    · subst hja
      have ht : alookup t j = none := alookup_eq_none_of_notmem t j ha
      rw [ht]
      simp only [alookup, if_pos rfl]
      cases b with
      | false =>
        simp [hc j]
      | true =>
        by_cases hcj : c (j, true) = true
        · simp only [hcj, if_pos rfl, and_true]
          simp [alookup_aupdate]
        · simp only [hcj]
          simp [hcj]
    · have hl : alookup ((a, b) :: t) j = alookup t j := by simp [alookup, hja]
      have hm : alookup (if c (a, b) then aupdate m a f else m) j = alookup m j := by
        split
        · rw [alookup_aupdate, if_neg hja]
        · rfl
      rw [hl]
      split
      · rw [hm]
      · rw [hm]

theorem alookup_clearFold (fs : List String) (f : VInfo → VInfo)
    (hf : ∀ i, f (f i) = f i) (m : List (String × VInfo)) (j : String) :
    alookup (fs.foldl (fun m k => aupdate m k f) m) j
      = if j ∈ fs then (alookup m j).map f else alookup m j := by
  induction fs generalizing m with
  | nil => simp
  | cons k t ih =>
    simp only [List.foldl_cons]
    rw [ih]
    by_cases hjt : j ∈ t
    · rw [if_pos hjt, if_pos (List.mem_cons_of_mem k hjt), alookup_aupdate]
      by_cases hjk : j = k
      · rw [if_pos hjk]
        cases alookup m j with
        | none => rfl
        | some i => simp [hf i]
      · rw [if_neg hjk]
    · rw [if_neg hjt, alookup_aupdate]
      by_cases hjk : j = k
      · simp [hjk, List.mem_cons, hjt]
      · simp [hjk, List.mem_cons, hjt]

theorem deepCascade_ne (l : List (String × Bool)) (key : String) :
    ∀ k ∈ l.filterMap
      (fun kv => if kv.2 && jsStartsWith kv.1 key && kv.1 != key then some kv.1 else none),
      k ≠ key := by
  intro k hk
  rw [List.mem_filterMap] at hk
  obtain ⟨kv, _, hif⟩ := hk
  by_cases hcnd : (kv.2 && jsStartsWith kv.1 key && kv.1 != key) = true
  · rw [if_pos hcnd] at hif
    obtain rfl := Option.some.inj hif
    have h2 : (kv.1 != key) = true := by
      simp only [Bool.and_eq_true] at hcnd
      exact hcnd.2
    exact bne_iff_ne.mp h2
  · rw [if_neg hcnd] at hif
    exact absurd hif (by simp)

theorem triggerValidateComplete_fail_some (st : ValidatorState) (key : String)
    (deepKeys : List String) (value : Value) (es : Option (List ErrItem))
    (fs : List (String × List ErrItem)) :
    triggerValidateComplete st key deepKeys value (.fail es (some fs))
      = ({ st with
            validateInfos := deepKeys.foldl
              (fun m k => aupdate m k (deepFailPatch fs k))
              (aupdate st.validateInfos key (failMainPatch fs es key)) },
          .rejectedFields fs) := by
  have hff : (es.isNone && (Option.some fs).isNone) = false := by simp
  simp only [triggerValidateComplete]
  rw [hff]
  rfl

theorem tvDeepKeys_ne (opts : Options) (st : ValidatorState) (key : String) :
    ∀ k ∈ tvDeepKeys opts st key, k ≠ key := by
  intro k hk
  unfold tvDeepKeys at hk
  split at hk
  · exact deepCascade_ne st.deepRuleKeys key k hk
  · exact absurd hk (List.not_mem_nil k)

theorem getGo_characterization (segs : List String) : ∀ (v : Value) (r : GetResult),
    getGo v segs = .ok r →
    (r.exist = (r.diff == 0)) ∧ r.diff = (specMissRemaining v segs).getD 0 ∧
    (r.exist = true ↔ (specMissRemaining v segs = none ∨ specMissRemaining v segs = some 0)) := by
  induction segs with
  | nil =>
    intro v r h
    simp only [getGo] at h
    obtain rfl : GetResult.mk v true 0 = r := Except.ok.inj h
    simp [specMissRemaining]
  | cons k rest ih =>
    intro v r h
    cases v with
    | vObj fs =>
      simp only [getGo] at h
      cases hl : alookup fs k with
      | some v' =>
        rw [hl] at h
        have := ih v' r h
        simpa [specMissRemaining, hl] using this
      | none =>
        rw [hl] at h
        obtain rfl : GetResult.mk Value.vUndef (rest.length == 0) rest.length = r :=
          Except.ok.inj h
        simp [specMissRemaining, hl, Nat.beq_eq_true_eq]
    | vUndef => exact absurd h (by simp [getGo])
    | vStr s => exact absurd h (by simp [getGo])
    | vNum n => exact absurd h (by simp [getGo])
    | vBool b => exact absurd h (by simp [getGo])

/-! Claim theorems. -/

/-- C1, counterexample: with rule `{ name: {required:true} }` and a model
without a `name` key, `get` reports `exist = true` (the miss is at the final
segment, `diff = 0`), so the absence branch is skipped even in non-strict
mode and validation rejects with the required message instead of resolving
`true` as the claim states. -/
theorem c1_counterexample :
    get (Value.vObj []) "name" = Except.ok ⟨Value.vUndef, true, 0⟩ ∧
    (triggerValidateWith ⟨false, false⟩ ruleEngineRequired stC1 "name" ⟨Value.vUndef, true, 0⟩).2.1
      = TVOutcome.rejectedFields [("name", [⟨some "required", Value.vUndef, "name"⟩])] ∧
    ¬ ((triggerValidateWith ⟨false, false⟩ ruleEngineRequired stC1 "name" ⟨Value.vUndef, true, 0⟩).2.1
        = TVOutcome.resolved true) := by
  refine ⟨rfl, rfl, ?_⟩
  intro hcontra
  rw [show (triggerValidateWith ⟨false, false⟩ ruleEngineRequired stC1 "name"
        ⟨Value.vUndef, true, 0⟩).2.1
      = TVOutcome.rejectedFields [("name", [⟨some "required", Value.vUndef, "name"⟩])] from rfl]
    at hcontra
  exact TVOutcome.noConfusion hcontra

/-- C1, amended: with rule `{ name: {required:true} }` and a model without a
`name` key at all, `get` yields `exist = true, diff = 0` for the
single-segment path, so strict and non-strict mode behave identically: both
validate the `undefined` value and reject with the required-rule message,
leaving the field in error state. -/
theorem c1_amended (b : Bool) :
    get (Value.vObj []) "name" = Except.ok ⟨Value.vUndef, true, 0⟩ ∧
    (triggerValidateWith ⟨b, false⟩ ruleEngineRequired stC1 "name" ⟨Value.vUndef, true, 0⟩).2.1
      = TVOutcome.rejectedFields [("name", [⟨some "required", Value.vUndef, "name"⟩])] ∧
    alookup (triggerValidateWith ⟨b, false⟩ ruleEngineRequired stC1 "name"
        ⟨Value.vUndef, true, 0⟩).1.validateInfos "name"
      = some ⟨true, VStatus.error, some "required"⟩ := by
  cases b
  · exact ⟨rfl, rfl, rfl⟩
  · exact ⟨rfl, rfl, rfl⟩

/-- C2: under deep-rule mode with `{ items: { type:'array', defaultField:
{ type:'object', fields: { name: {required:true, message:'required'} } } } }`
and backing value `""` at `items.0.name`, reading the validation state for
`items.0.name` yields an entry with `required = true`, and triggering
validation for that path rejects with
`{ 'items.0.name': [{message:'required', fieldValue:'', field:'items.0.name'}] }`. -/
theorem c2_theorem :
    (readValidationState optsC2 stC2 "items.0.name").2
      = some { required := true, validateStatus := VStatus.empty, error := none } ∧
    get modelC2 "items.0.name" = Except.ok ⟨Value.vStr "", true, 0⟩ ∧
    (triggerValidateWith optsC2 ruleEngineRequired
        (readValidationState optsC2 stC2 "items.0.name").1 "items.0.name"
        ⟨Value.vStr "", true, 0⟩).2.1
      = TVOutcome.rejectedFields
          [("items.0.name", [⟨some "required", Value.vStr "", "items.0.name"⟩])] :=
  ⟨rfl, rfl, rfl⟩

/-- C3, counterexample: on `{ user: {} }` the path `user.name` misses at its
final segment (`specMissRemaining = some 0`), yet `get` reports
`exist = true`; the claim's "exists=true only if the final segment is
present on its parent" is false. -/
theorem c3_counterexample :
    get (Value.vObj [("user", Value.vObj [])]) "user.name"
      = Except.ok ⟨Value.vUndef, true, 0⟩ ∧
    specMissRemaining (Value.vObj [("user", Value.vObj [])]) (jsSplitDot "user.name")
      = some 0 :=
  ⟨rfl, rfl⟩

/-- C3, amended: whenever `get` returns a result, `exist` is true exactly
when `diff = 0`, i.e. when either every segment resolves or only the final
segment is missing from its (fully traversable) parent; on an earlier miss,
`diff` is the number of segments strictly after the miss point; full
resolution gives `diff = 0`. -/
theorem c3_amended (root : Value) (key : String) (r : GetResult)
    (h : get root key = Except.ok r) :
    (r.exist = (r.diff == 0)) ∧
    r.diff = (specMissRemaining root (jsSplitDot key)).getD 0 ∧
    (r.exist = true ↔ (specMissRemaining root (jsSplitDot key) = none ∨
      specMissRemaining root (jsSplitDot key) = some 0)) :=
  getGo_characterization (jsSplitDot key) root r h

/-- C3, witness: `c3_amended` applied to the root `{ a: {} }` and path
`a.b.c`, whose traversal misses at `b` with one segment remaining. -/
theorem c3_witness :
    get (Value.vObj [("a", Value.vObj [])]) "a.b.c"
      = Except.ok ⟨Value.vUndef, false, 1⟩ ∧
    ((false : Bool) = ((1 : Nat) == 0)) :=
  ⟨rfl, (c3_amended (Value.vObj [("a", Value.vObj [])]) "a.b.c" ⟨Value.vUndef, false, 1⟩ rfl).1⟩

/-- C4, counterexample: when the engine rejects without a structured
`{errors, fields}` shape, `triggerValidate` throws `FormValidationError`
without touching the status, so the path is left in `validating` state
across the call's completion, which is neither `success` nor `error`. -/
theorem c4_counterexample :
    (triggerValidateWith ⟨false, false⟩ unknownEngine stC6 "name"
        ⟨Value.vStr "x", true, 0⟩).2.1
      = TVOutcome.threwValidationError "name" "unknown" (Value.vStr "x") ∧
    alookup (triggerValidateWith ⟨false, false⟩ unknownEngine stC6 "name"
        ⟨Value.vStr "x", true, 0⟩).1.validateInfos "name"
      = some ⟨true, VStatus.validating, none⟩ ∧
    (VStatus.validating ≠ VStatus.success ∧ VStatus.validating ≠ VStatus.error) :=
  ⟨rfl, rfl, by decide⟩

/-- C5, counterexample: in the absence branch the source clears
deep-registered keys `k` with `key.startsWith(k)` — ancestors of the
validated path — not descendants: with `a.b.c` deep-registered and in error
state, the absence branch for `a.b` leaves `a.b.c` in error state, contrary
to the claim that every deep-registered descendant is cleared. -/
theorem c5_counterexample :
    (triggerValidateSync ⟨false, true⟩ stC5 "a.b" ⟨Value.vUndef, false, 1⟩).isEarly = true ∧
    alookup (triggerValidateSync ⟨false, true⟩ stC5 "a.b"
        ⟨Value.vUndef, false, 1⟩).state.validateInfos "a.b.c"
      = some errInfo ∧
    errInfo.validateStatus = VStatus.error :=
  ⟨rfl, rfl, rfl⟩

/-- C6, code-bug evaluation: an unstructured engine failure makes
`triggerValidate` throw a `FormValidationError`, but `doValidateField`'s
catch-all flattens that `Error` instance into plain `validationErrors`
entries via `Object.assign`, so with a callback present `validateField`
resolves `false` (the callback receiving the flattened pseudo-map) instead
of propagating the error as a rejection; without a callback it rejects with
the plain pseudo-map, not the `Error`. -/
theorem c6_code_bug_eval :
    (validateField ⟨false, false⟩ modelC6 unknownEngine stC6 (some ["name"]) true).map
        (fun o => o.res)
      = Except.ok VFRes.resolvedFalse ∧
    (validateField ⟨false, false⟩ modelC6 unknownEngine stC6 (some ["name"]) true).map
        (fun o => o.callbacks)
      = Except.ok [(false, some (errProps "name" "unknown" (Value.vStr "x")))] ∧
    (validateField ⟨false, false⟩ modelC6 unknownEngine stC6 (some ["name"]) false).map
        (fun o => o.res)
      = Except.ok (VFRes.rejectedMap (errProps "name" "unknown" (Value.vStr "x"))) :=
  ⟨rfl, rfl, rfl⟩

/-- C7, counterexample: with `strict = true` and a deep-registered path
`a.b` whose backing value is absent with `diff = 1`, `triggerValidate`'s
absence check is *not* taken (`!exist && (!strict || diff > 1)` is false),
yet `clearDeepValidation` still removes the path's info, registry entry,
watch handle and rule entry (`!exist && (strict || diff)` holds) — so the
removal condition is not identical to `triggerValidate`'s absence check. -/
theorem c7_counterexample :
    clearDeepValidation ⟨true, true⟩ (Value.vObj []) stC7 (some ["a.b"]) true
      = Except.ok ⟨[], [], [], []⟩ ∧
    (triggerValidateSync ⟨true, true⟩ stC7 "a.b" ⟨Value.vUndef, false, 1⟩).isEarly = false ∧
    get (Value.vObj []) "a.b" = Except.ok ⟨Value.vUndef, false, 1⟩ :=
  ⟨rfl, rfl, rfl⟩

/-- C8, counterexample: two change-triggered validation calls for different
paths inside the same debounce window share the single timeout slot; the
later call for `email` cancels the pending validation for `name`, so only
`email` is executed and `name`'s validation is dropped — both paths are not
eventually executed as the claim states. -/
theorem c8_counterexample :
    debounceExecuted [("name", Value.vStr "a"), ("email", Value.vStr "b")]
      = [("email", Value.vStr "b")] ∧
    ((debounceExecuted [("name", Value.vStr "a"), ("email", Value.vStr "b")]).all
      (fun p => p.1 != "name")) = true :=
  ⟨rfl, rfl⟩

/-- C8, amended: the shared debounce slot keeps only the last call of a
window — after any burst of calls, exactly the final call (with its own
path/value arguments) is pending and executed; every earlier call of the
window, including ones for different paths, is dropped. -/
theorem c8_amended {α : Type} (calls : List α) :
    debouncePending calls = calls.getLast? := by
  have key : ∀ (l : List α) (x : α), l.foldl debounceCall (some x) = some (l.getLastD x) := by
    intro l
    induction l with
    | nil => intro x; rfl
    | cons a t ih =>
      intro x
      simp only [List.foldl_cons]
      rw [show debounceCall (some x) a = some a from rfl, ih]
      cases t with
      | nil => rfl
      | cons b t2 => simp only [List.getLastD_cons]
  cases calls with
  | nil => rfl
  | cons a t =>
    show (a :: t).foldl debounceCall none = _
    simp only [List.foldl_cons]
    rw [show debounceCall none a = some a from rfl, key]
    simp [List.getLast?_cons]

/-- C10: whenever the resolved target field set is empty, `validateField`
(and therefore `validate`, which forwards to it) resolves `true` without
invoking the rule engine and without changing any validation state; a
supplied callback receives `true`. -/
theorem c10_theorem (opts : Options) (model : Value)
    (engine : String → List Rule → Value → EngineOutcome)
    (st : ValidatorState) (props : Option (List String)) (hasCallback : Bool)
    (h : obtainValidateFields opts st props = []) :
    validateField opts model engine st props hasCallback
      = Except.ok ⟨st, [], VFRes.resolvedTrue, if hasCallback then [(true, none)] else []⟩ := by
  simp [validateField, doValidateField, h]

/-- C10, witness: a state with no declared rules and an explicitly requested
path resolves to the empty field set, and `c10_theorem` applies. -/
theorem c10_witness :
    obtainValidateFields ⟨false, false⟩ ⟨[], [], [], []⟩ (some ["name"]) = [] ∧
    validateField ⟨false, false⟩ (Value.vObj []) ruleEngineRequired ⟨[], [], [], []⟩
        (some ["name"]) true
      = Except.ok ⟨⟨[], [], [], []⟩, [], VFRes.resolvedTrue, [(true, none)]⟩ :=
  ⟨rfl, c10_theorem ⟨false, false⟩ (Value.vObj []) ruleEngineRequired ⟨[], [], [], []⟩
    (some ["name"]) true rfl⟩

/-- C4, amended: when the resolved value is present (`exist = true`, so the
absence branch is not taken), `triggerValidate` invokes the engine, the
synchronous phase sets the path's status to `validating` before the engine
runs, and whenever the engine settles with a structured outcome (fulfilled,
or rejected with a `fields` map), the path's final status is `success` or
`error`; only an unstructured engine failure leaves the path `validating`
(see the counterexample) and the absence branch resolves without ever
entering `validating`. -/
theorem c4_amended (opts : Options) (st : ValidatorState) (key : String) (gr : GetResult)
    (outcome : EngineOutcome)
    (hex : gr.exist = true)
    (hstruct : outcome = EngineOutcome.ok ∨
      ∃ es fs, outcome = EngineOutcome.fail es (some fs)) :
    (triggerValidateWith opts (fun _ _ _ => outcome) st key gr).2.2 = true ∧
    alookup (triggerValidateSync opts st key gr).state.validateInfos key
      = (alookup st.validateInfos key).map validatingPatch ∧
    (∀ i, alookup (triggerValidateWith opts (fun _ _ _ => outcome) st key gr).1.validateInfos key
        = some i → i.validateStatus = VStatus.success ∨ i.validateStatus = VStatus.error) := by
  have hb : (!gr.exist && (!opts.strict || decide (gr.diff > 1))) = false := by
    rw [hex]; rfl
  have hdkne : ∀ k ∈ tvDeepKeys opts st key, k ≠ key := tvDeepKeys_ne opts st key
  have hsync : triggerValidateSync opts st key gr
      = TVPhase.invoke
          { st with
              validateInfos := (tvDeepKeys opts st key).foldl
                (fun m k => aupdate m k validatingPatch)
                (aupdate st.validateInfos key validatingPatch) }
          (tvDeepKeys opts st key) ((alookup st.normalizedRules key).getD []) gr.value := by
    unfold triggerValidateSync
    rw [hb]
    rfl
  have hstv : (triggerValidateSync opts st key gr).state
      = { st with
            validateInfos := (tvDeepKeys opts st key).foldl
              (fun m k => aupdate m k validatingPatch)
              (aupdate st.validateInfos key validatingPatch) } := by
    rw [hsync]
    rfl
  have hwith1 : (triggerValidateWith opts (fun _ _ _ => outcome) st key gr).1
      = (triggerValidateComplete (triggerValidateSync opts st key gr).state key
          (tvDeepKeys opts st key) gr.value outcome).1 := by
    unfold triggerValidateWith
    rw [hsync]
    rfl
  have hwith2 : (triggerValidateWith opts (fun _ _ _ => outcome) st key gr).2.2 = true := by
    unfold triggerValidateWith
    rw [hsync]
  have hlook : alookup (triggerValidateSync opts st key gr).state.validateInfos key
      = (alookup st.validateInfos key).map validatingPatch := by
    rw [hstv]
    show alookup ((tvDeepKeys opts st key).foldl (fun m k => aupdate m k validatingPatch)
      (aupdate st.validateInfos key validatingPatch)) key = _
    rw [alookup_foldAupdate_notmem (fun _ => validatingPatch) (tvDeepKeys opts st key)
      (aupdate st.validateInfos key validatingPatch) key hdkne]
    rw [alookup_aupdate, if_pos rfl]
  refine ⟨hwith2, hlook, ?_⟩
  intro i hi
  rw [hwith1] at hi
  rcases hstruct with rfl | ⟨es, fs, rfl⟩
  · have hinfos : (triggerValidateComplete (triggerValidateSync opts st key gr).state key
        (tvDeepKeys opts st key) gr.value EngineOutcome.ok).1.validateInfos
      = (tvDeepKeys opts st key).foldl (fun m k => aupdate m k successKeepErr)
          (aupdate (triggerValidateSync opts st key gr).state.validateInfos key successKeepErr) :=
      rfl
    rw [hinfos, alookup_foldAupdate_notmem (fun _ => successKeepErr) (tvDeepKeys opts st key)
      (aupdate (triggerValidateSync opts st key gr).state.validateInfos key successKeepErr)
      key hdkne, alookup_aupdate, if_pos rfl] at hi
    cases halk : alookup (triggerValidateSync opts st key gr).state.validateInfos key with
    | none => rw [halk] at hi; exact absurd hi (by simp)
    | some i0 =>
      rw [halk] at hi
      obtain rfl : successKeepErr i0 = i := Option.some.inj hi
      exact Or.inl rfl
  · have hinfos : (triggerValidateComplete (triggerValidateSync opts st key gr).state key
        (tvDeepKeys opts st key) gr.value (EngineOutcome.fail es (some fs))).1.validateInfos
      = (tvDeepKeys opts st key).foldl (fun m k => aupdate m k (deepFailPatch fs k))
          (aupdate (triggerValidateSync opts st key gr).state.validateInfos key
            (failMainPatch fs es key)) := by
      rw [triggerValidateComplete_fail_some]
    rw [hinfos, alookup_foldAupdate_notmem (deepFailPatch fs) (tvDeepKeys opts st key)
      (aupdate (triggerValidateSync opts st key gr).state.validateInfos key
        (failMainPatch fs es key)) key hdkne, alookup_aupdate, if_pos rfl] at hi
    cases halk : alookup (triggerValidateSync opts st key gr).state.validateInfos key with
    | none => rw [halk] at hi; exact absurd hi (by simp)
    | some i0 =>
      rw [halk] at hi
      obtain rfl : failMainPatch fs es key i0 = i := Option.some.inj hi
      unfold failMainPatch
      split
      · exact Or.inr rfl
      · exact Or.inl rfl

/-- C4, witness: `c4_amended` applied to the `name` field of `stC6` with a
structured failing engine outcome. -/
theorem c4_witness :
    (true : Bool) = true ∧
    (triggerValidateWith ⟨false, false⟩
      (fun _ _ _ => EngineOutcome.fail (some [⟨some "required", Value.vStr "", "name"⟩])
        (some [("name", [⟨some "required", Value.vStr "", "name"⟩])]))
      stC6 "name" ⟨Value.vStr "", true, 0⟩).2.2 = true :=
  ⟨rfl, (c4_amended ⟨false, false⟩ stC6 "name" ⟨Value.vStr "", true, 0⟩
    (EngineOutcome.fail (some [⟨some "required", Value.vStr "", "name"⟩])
      (some [("name", [⟨some "required", Value.vStr "", "name"⟩])]))
    rfl (Or.inr ⟨_, _, rfl⟩)).1⟩

/-- C5, amended: when the resolved value is absent and (not strict, or
`missingDepth > 1`), `triggerValidate` resolves `true` without invoking the
rule engine, clears the path's own status/error, clears the status of every
deep-registered *ancestor* of the path (registered keys `k` with
`key.startsWith(k)`, `k ≠ key`), leaves every other entry and the rest of
the state untouched. -/
theorem c5_amended (opts : Options) (st : ValidatorState) (key : String) (gr : GetResult)
    (engine : String → List Rule → Value → EngineOutcome)
    (hex : gr.exist = false)
    (hcnd : opts.strict = false ∨ gr.diff > 1)
    (hnd : (st.deepRuleKeys.map Prod.fst).Nodup) :
    (triggerValidateWith opts engine st key gr).2.1 = TVOutcome.resolved true ∧
    (triggerValidateWith opts engine st key gr).2.2 = false ∧
    (triggerValidateWith opts engine st key gr).1.normalizedRules = st.normalizedRules ∧
    (triggerValidateWith opts engine st key gr).1.deepRuleKeys = st.deepRuleKeys ∧
    (triggerValidateWith opts engine st key gr).1.watchHandles = st.watchHandles ∧
    alookup (triggerValidateWith opts engine st key gr).1.validateInfos key
      = (alookup st.validateInfos key).map clearedPatch ∧
    (∀ j, j ≠ key →
      alookup (triggerValidateWith opts engine st key gr).1.validateInfos j
        = if opts.deepRule = true ∧ alookup st.deepRuleKeys j = some true
              ∧ jsStartsWith key j = true
          then (alookup st.validateInfos j).map clearedPatch
          else alookup st.validateInfos j) := by
  have hb : (!gr.exist && (!opts.strict || decide (gr.diff > 1))) = true := by
    rw [hex]
    rcases hcnd with h | h
    · rw [h]; rfl
    · simp [h]
  have hred : triggerValidateWith opts engine st key gr
      = ({ st with validateInfos := tvAbsenceClear opts st key },
          TVOutcome.resolved true, false) := by
    unfold triggerValidateWith triggerValidateSync
    rw [hb]
    rfl
  refine ⟨by rw [hred], by rw [hred], by rw [hred], by rw [hred], by rw [hred], ?_, ?_⟩
  · rw [hred]
    show alookup (tvAbsenceClear opts st key) key = _
    unfold tvAbsenceClear
    cases hdr : opts.deepRule
    · rw [if_neg Bool.false_ne_true, alookup_aupdate, if_pos rfl]
    · rw [if_pos rfl]
      rw [alookup_condFold st.deepRuleKeys
        (fun kv => kv.2 && jsStartsWith key kv.1 && kv.1 != key) clearedPatch
        (aupdate st.validateInfos key clearedPatch) key hnd (fun k => rfl)]
      rw [if_neg (by simp), alookup_aupdate, if_pos rfl]
  · intro j hj
    rw [hred]
    show alookup (tvAbsenceClear opts st key) j = _
    unfold tvAbsenceClear
    cases hdr : opts.deepRule
    · rw [if_neg Bool.false_ne_true, alookup_aupdate, if_neg hj,
        if_neg (by rintro ⟨h, _⟩; exact Bool.false_ne_true h)]
    · rw [if_pos rfl]
      rw [alookup_condFold st.deepRuleKeys
        (fun kv => kv.2 && jsStartsWith key kv.1 && kv.1 != key) clearedPatch
        (aupdate st.validateInfos key clearedPatch) j hnd (fun k => rfl)]
      have hbne : (j != key) = true := bne_iff_ne.mpr hj
      by_cases h1 : alookup st.deepRuleKeys j = some true
      · by_cases h2 : jsStartsWith key j = true
        · rw [if_pos (by simp [h1, h2, hbne]), alookup_aupdate, if_neg hj,
            if_pos ⟨rfl, h1, h2⟩]
        · rw [if_neg (by simp [h2]), alookup_aupdate, if_neg hj,
            if_neg (by rintro ⟨_, _, hh⟩; exact h2 hh)]
      · rw [if_neg (by simp [h1]), alookup_aupdate, if_neg hj,
          if_neg (by rintro ⟨_, hh, _⟩; exact h1 hh)]

/-- C5, witness: `c5_amended` applied to the absent path `a.b` of `stC5` in
non-strict mode. -/
theorem c5_witness :
    GetResult.exist ⟨Value.vUndef, false, 1⟩ = false ∧
    (triggerValidateWith ⟨false, true⟩ ruleEngineRequired stC5 "a.b"
        ⟨Value.vUndef, false, 1⟩).2.1 = TVOutcome.resolved true :=
  ⟨rfl, (c5_amended ⟨false, true⟩ stC5 "a.b" ⟨Value.vUndef, false, 1⟩ ruleEngineRequired
    rfl (Or.inl rfl) (by decide)).1⟩

/-- C7, amended: `clearDeepInfo` removes the path's validation info, watch
handle, rule-index entry and deep-registry membership exactly when the
re-resolved backing value is absent (`exist = false`); the `strict` flag is
immaterial, because whenever the value is absent `diff ≥ 1`, so the source's
condition `(strict || diff)` is already true. -/
theorem c7_amended (model : Value) (strict : Bool) (st : ValidatorState) (key : String)
    (r : GetResult) (hget : get model key = Except.ok r)
    (hw : st.watchHandles.contains key = true) :
    clearDeepInfo model strict st key
      = Except.ok (if r.exist = true then st else
          { normalizedRules := aremove st.normalizedRules key,
            deepRuleKeys := aremove st.deepRuleKeys key,
            watchHandles := st.watchHandles.filter (fun k => k != key),
            validateInfos := aremove st.validateInfos key }) := by
  have hchar := (getGo_characterization (jsSplitDot key) model r hget).1
  have hstep : clearDeepInfo model strict st key
      = if !r.exist && (strict || r.diff != 0) then
          (if st.watchHandles.contains key then
            Except.ok { normalizedRules := aremove st.normalizedRules key,
                        deepRuleKeys := aremove st.deepRuleKeys key,
                        watchHandles := st.watchHandles.filter (fun k => k != key),
                        validateInfos := aremove st.validateInfos key }
           else Except.error ())
        else Except.ok st := by
    unfold clearDeepInfo
    rw [hget]
  rw [hstep]
  by_cases hex : r.exist = true
  · have hcnd : (!r.exist && (strict || r.diff != 0)) = false := by
      rw [hex]; rfl
    rw [hcnd, if_neg Bool.false_ne_true, if_pos hex]
  · have hexf : r.exist = false := by
      cases hb2 : r.exist
      · rfl
      · exact absurd hb2 hex
    have hdiff : (r.diff == 0) = false := by rw [← hchar, hexf]
    have hcnd : (!r.exist && (strict || r.diff != 0)) = true := by
      rw [hexf]
      simp [bne, hdiff]
    rw [hcnd, if_pos rfl, if_pos hw, if_neg hex]

/-- C7, witness: `c7_amended` applied to the deep-registered path `a.b` of
`stC7` with an empty model and `strict = true`; the entry is removed. -/
theorem c7_witness :
    get (Value.vObj []) "a.b" = Except.ok ⟨Value.vUndef, false, 1⟩ ∧
    stC7.watchHandles.contains "a.b" = true ∧
    clearDeepInfo (Value.vObj []) true stC7 "a.b" = Except.ok ⟨[], [], [], []⟩ := by
  refine ⟨rfl, rfl, ?_⟩
  have h := c7_amended (Value.vObj []) true stC7 "a.b" ⟨Value.vUndef, false, 1⟩ rfl rfl
  simpa using h

/-- C9: `clearValidate` leaves the rule index, the deep registry and the
watch handles unchanged and preserves every entry's `required` flag; it
resets `validateStatus`/`error` exactly for the obtained fields and for
every deep-registered key (with registry value `true`) that properly
extends one of them, leaving all other entries untouched — so re-validating
a cleared path still finds its rules and subscription. -/
theorem c9_theorem (opts : Options) (st : ValidatorState) (props : Option (List String))
    (hnd : (st.deepRuleKeys.map Prod.fst).Nodup) :
    (clearValidate opts st props).normalizedRules = st.normalizedRules ∧
    (clearValidate opts st props).deepRuleKeys = st.deepRuleKeys ∧
    (clearValidate opts st props).watchHandles = st.watchHandles ∧
    (∀ j, alookup (clearValidate opts st props).validateInfos j
        = if j ∈ obtainValidateFields opts st props ∨
             (alookup st.deepRuleKeys j = some true ∧
              (obtainValidateFields opts st props).any
                (fun f => jsStartsWith j f && j != f) = true)
          then (alookup st.validateInfos j).map clearedPatch
          else alookup st.validateInfos j) ∧
    (∀ j, (alookup (clearValidate opts st props).validateInfos j).map VInfo.required
        = (alookup st.validateInfos j).map VInfo.required) := by
  have hmap2 : ∀ (x : Option VInfo), (x.map clearedPatch).map clearedPatch = x.map clearedPatch :=
    fun x => by cases x <;> rfl
  have hcv : clearValidate opts st props
      = { st with
            validateInfos := st.deepRuleKeys.foldl
              (fun m kv =>
                if kv.2 && (obtainValidateFields opts st props).any
                    (fun f => jsStartsWith kv.1 f && kv.1 != f) then
                  aupdate m kv.1 clearedPatch
                else m)
              ((obtainValidateFields opts st props).foldl
                (fun m k => aupdate m k clearedPatch) st.validateInfos) } := rfl
  have hpoint : ∀ j, alookup (clearValidate opts st props).validateInfos j
      = if j ∈ obtainValidateFields opts st props ∨
           (alookup st.deepRuleKeys j = some true ∧
            (obtainValidateFields opts st props).any
              (fun f => jsStartsWith j f && j != f) = true)
        then (alookup st.validateInfos j).map clearedPatch
        else alookup st.validateInfos j := by
    intro j
    rw [hcv]
    show alookup (st.deepRuleKeys.foldl _ _) j = _
    rw [alookup_condFold st.deepRuleKeys
      (fun kv => kv.2 && (obtainValidateFields opts st props).any
        (fun f => jsStartsWith kv.1 f && kv.1 != f)) clearedPatch _ j hnd (fun k => rfl)]
    rw [alookup_clearFold (obtainValidateFields opts st props) clearedPatch (fun i => rfl)]
    by_cases h1 : alookup st.deepRuleKeys j = some true
    · by_cases h2 : (obtainValidateFields opts st props).any
          (fun f => jsStartsWith j f && j != f) = true
      · by_cases h3 : j ∈ obtainValidateFields opts st props
        · rw [if_pos (by simp [h1, h2]), if_pos h3, hmap2, if_pos (Or.inl h3)]
        · rw [if_pos (by simp [h1, h2]), if_neg h3, if_pos (Or.inr ⟨h1, h2⟩)]
      · by_cases h3 : j ∈ obtainValidateFields opts st props
        · rw [if_neg (by simp [h2]), if_pos h3, if_pos (Or.inl h3)]
        · rw [if_neg (by simp [h2]), if_neg h3,
            if_neg (by rintro (h | ⟨_, hh⟩); exact h3 h; exact h2 hh)]
    · by_cases h3 : j ∈ obtainValidateFields opts st props
      · rw [if_neg (by simp [h1]), if_pos h3, if_pos (Or.inl h3)]
      · rw [if_neg (by simp [h1]), if_neg h3,
          if_neg (by rintro (h | ⟨hh, _⟩); exact h3 h; exact h1 hh)]
  refine ⟨by rw [hcv], by rw [hcv], by rw [hcv], hpoint, ?_⟩
  intro j
  rw [hpoint j]
  have hreq : ∀ (x : Option VInfo),
      ((x.map clearedPatch).map VInfo.required) = x.map VInfo.required :=
    fun x => by cases x <;> rfl
  split
  · exact hreq _
  · rfl

/-- C9, witness: `c9_theorem` applied to `stC5` clearing `a.b`. -/
theorem c9_witness :
    (stC5.deepRuleKeys.map Prod.fst).Nodup ∧
    (clearValidate ⟨false, true⟩ stC5 (some ["a.b"])).normalizedRules
      = stC5.normalizedRules :=
  ⟨by decide, (c9_theorem ⟨false, true⟩ stC5 (some ["a.b"]) (by decide)).1⟩

end EasilyJs
